import Mathlib

/-!
Verification of the espoll polling/search helpers (package espoll of the
apm-tools repository): the search-request builders, the result decoder and
the condition combinators, embedded shallowly in Lean.

JSON documents are modelled as already-parsed trees (`JValue`); JSON numbers
are modelled as rationals (Go decodes them into float64; none of the verified
properties depends on floating-point rounding).  Go maps obtained from JSON
objects are modelled as association lists observed through last-binding-wins
lookup, which matches Go's duplicate-key semantics for `encoding/json`.
-/

namespace Espoll

/-- A parsed JSON value.  `obj` keeps members in document order; duplicate
keys are permitted and are resolved by `lookupLast` below, as Go does. -/
inductive JValue where
  | null : JValue
  | bool (b : Bool) : JValue
  | num (q : Rat) : JValue
  | str (s : String) : JValue
  | arr (elems : List JValue) : JValue
  | obj (members : List (String × JValue)) : JValue

/-- Access to a Go map built from an association list by inserting the
bindings in order: the LAST binding of a key wins (a later `m[k] = v`
assignment overwrites an earlier one), which is also how `encoding/json`
resolves duplicate object keys. -/
def lookupL {β : Type} : List (String × β) → String → Option β
  | [], _ => none
  | (k2, v) :: rest, k =>
    match lookupL rest k with
    | some r => some r
    | none => if k2 = k then some v else none

/-- `dropPre sep s` returns `some rest` when `sep` is a prefix of `s`,
with `rest` the remainder, and `none` otherwise. -/
def dropPre : List Char → List Char → Option (List Char)
  | [], s => some s
  | _ :: _, [] => none
  | a :: sep, b :: s => if a = b then dropPre sep s else none

/-- Worker for `goSplit` with a non-empty separator: splits around each
leftmost occurrence of `sep`.  `fuel` bounds the recursion; it is called
with more fuel than characters, so the fuel never runs out. -/
def goSplitAux (sep : List Char) : Nat → List Char → List Char → List (List Char)
  | 0, s, acc => [acc.reverse ++ s]
  | _ + 1, [], acc => [acc.reverse]
  | fuel + 1, c :: rest, acc =>
    match dropPre sep (c :: rest) with
    | some r => acc.reverse :: goSplitAux sep fuel r []
    | none => goSplitAux sep fuel rest (c :: acc)

/-- Go `strings.Split(s, sep)`: with an empty separator the string is
exploded into its characters; otherwise the string is split around every
non-overlapping leftmost occurrence of `sep` (so `Split("", sep)` is
`[""]` and `Split(",", ",")` is `["", ""]`). -/
def goSplit (s sep : String) : List String :=
  if sep.data.isEmpty then s.data.map (fun c => String.mk [c])
  else (goSplitAux sep.data (s.data.length + 1) s.data []).map String.mk

/-- One decoded search hit (type `SearchHit` of espoll).  `fields` is the
decoded `map[string][]any` and `source` the decoded `map[string]any`;
`rawSource`/`rawFields` model the retained `json.RawMessage` values, with
`none` standing for a nil raw message (the key was absent). -/
structure SearchHit where
  index : String
  id : String
  score : Rat
  fields : List (String × List JValue)
  source : List (String × JValue)
  rawSource : Option JValue
  rawFields : Option JValue

/-- The `total` object of a search response: a count and its relation
marker (`"eq"` or `"gte"`). -/
structure SearchHitsTotal where
  value : Int
  relation : String

/-- The `hits` object of a search response. -/
structure SearchHits where
  total : SearchHitsTotal
  hits : List SearchHit

/-- A decoded search response (type `SearchResult` of espoll). -/
structure SearchResult where
  hits : SearchHits
  aggregations : List (String × JValue)

/-- The mutable search request (the fields of the wrapped
`esapi.SearchRequest` that espoll touches).  `size = none` models the nil
`Size` pointer, i.e. the store's default page size applies. -/
structure SearchRequest where
  index : List String
  expandWildcards : String
  size : Option Int
  sort : List String
  body : JValue

/-- `Client.NewSearchRequest`: splits the comma-separated index argument
into the request's index set and installs the default body requesting all
field projections. -/
def NewSearchRequest (index : String) : SearchRequest :=
  { index := goSplit index ","
    expandWildcards := ""
    size := none
    sort := []
    body := .obj [("fields", .arr [.str "*"])] }

/-- `SearchRequest.WithQuery`: replaces the body with the given query plus
the all-fields projection. -/
def SearchRequest.WithQuery (r : SearchRequest) (q : JValue) : SearchRequest :=
  { r with body := .obj [("query", q), ("fields", .arr [.str "*"])] }

/-- `SearchRequest.WithSort`. -/
def SearchRequest.WithSort (r : SearchRequest) (fieldDirection : List String) : SearchRequest :=
  { r with sort := fieldDirection }

/-- `SearchRequest.WithSize`: sets the result-size override. -/
def SearchRequest.WithSize (r : SearchRequest) (size : Int) : SearchRequest :=
  { r with size := some size }

/-- A condition (`ConditionFunc`): in Go a closure over the decoded result
and, for mutating conditions, over the search request it may adjust.  It is
embedded as a transformer of the captured payload state: the returned
boolean is the predicate's verdict and the returned state is the payload
after any side effect. -/
def Cond (α : Type) : Type := α → Bool × α

/-- `SearchHits.MinHitsCondition`: true iff the number of decoded hits is
at least `min`; the payload is returned untouched (the Go closure captures
neither the request nor anything else it could mutate). -/
def SearchHits.MinHitsCondition (h : SearchHits) (min : Int) : Cond SearchRequest :=
  fun req => (decide ((h.hits.length : Int) ≥ min), req)

/-- `SearchHits.NonEmptyCondition`: defined in the source as
`MinHitsCondition(1)`. -/
def SearchHits.NonEmptyCondition (h : SearchHits) : Cond SearchRequest :=
  h.MinHitsCondition 1

/-- `SearchHits.TotalHitsCondition`: true when the number of decoded hits
has reached the reported total; otherwise it stores the reported total into
the request's size override and returns false. -/
def SearchHits.TotalHitsCondition (h : SearchHits) : Cond SearchRequest :=
  fun req =>
    if (h.hits.length : Int) ≥ h.total.value then (true, req)
    else (false, { req with size := some h.total.value })

/-- Modelled from the spec: `AllCondition` (`AllOf`) is declared in the
espoll client file, which is not among the provided sources (only its call
site in `SearchIndexMinDocs` is).  Per sections 4.1 and 4.2 of the spec it
evaluates every sub-condition on every attempt, never short-circuiting, so
that payload-mutating side effects always run, and it returns the
conjunction of the sub-results. -/
def AllCondition (conds : List (Cond α)) : Cond α :=
  fun s => conds.foldl (fun acc c => let r := c acc.2; (acc.1 && r.1, r.2)) (true, s)

/-- Reference evaluation of a condition list: the verdict of every
condition, in order, threading the payload state through all of them. -/
def runConds : List (Cond α) → α → List Bool × α
  | [], s => ([], s)
  | c :: cs, s =>
    let r := c s
    let rest := runConds cs r.2
    (r.1 :: rest.1, rest.2)

/-- The payload state after applying every condition's side effect in
order, ignoring all verdicts. -/
def applyConds (conds : List (Cond α)) (s : α) : α :=
  conds.foldl (fun st c => (c st).2) s

/-- Go `encoding/json` into a `string` field: an absent key or a JSON null
leaves the zero value `""`; a JSON string is stored; any other value is a
type error. -/
def getGoString (v : Option JValue) : Except String String :=
  match v with
  | none => .ok ""
  | some .null => .ok ""
  | some (.str s) => .ok s
  | some _ => .error "json: cannot unmarshal value into Go value of type string"

/-- Go `encoding/json` into a `float64` field: an absent key or a JSON null
leaves the zero value; a JSON number is stored; any other value is a type
error. -/
def getGoNumber (v : Option JValue) : Except String Rat :=
  match v with
  | none => .ok 0
  | some .null => .ok 0
  | some (.num q) => .ok q
  | some _ => .error "json: cannot unmarshal value into Go value of type float64"

/-- Go `encoding/json` into an `int` field: an absent key or a JSON null
leaves the zero value; an integral JSON number is stored; a fractional
number or any other value is a type error. -/
def getGoInt (v : Option JValue) : Except String Int :=
  match v with
  | none => .ok 0
  | some .null => .ok 0
  | some (.num q) => if q.den = 1 then .ok q.num else .error "json: cannot unmarshal number into Go value of type int"
  | some _ => .error "json: cannot unmarshal value into Go value of type int"

/-- Go `json.Unmarshal(raw, &m)` for an initially empty `map[string]any`:
a nil raw message (absent key) is the classic empty-input decode error; a
JSON null leaves the map empty; a JSON object yields its members (observed
through `lookupL`); anything else is a type error. -/
def decodeAnyMap (v : Option JValue) : Except String (List (String × JValue)) :=
  match v with
  | none => .error "unexpected end of JSON input"
  | some .null => .ok []
  | some (.obj kvs) => .ok kvs
  | some _ => .error "json: cannot unmarshal value into Go value of type map"

/-- Go `encoding/json` into a `[]any` element of the fields map: a JSON
array yields its elements verbatim; a JSON null leaves the nil slice
(modelled as `[]`); anything else is a type error. -/
def decodeAnyList (v : JValue) : Except String (List JValue) :=
  match v with
  | .null => .ok []
  | .arr vs => .ok vs
  | _ => .error "json: cannot unmarshal value into Go value of type slice"

/-- Decodes the members of the `fields` object in document order, failing on
the first member whose value is not a JSON array (or null). -/
def decodeFieldsEntries : List (String × JValue) → Except String (List (String × List JValue))
  | [] => .ok []
  | (k, v) :: rest =>
    match decodeAnyList v with
    | .error e => .error e
    | .ok vs =>
      match decodeFieldsEntries rest with
      | .error e => .error e
      | .ok tail => .ok ((k, vs) :: tail)

/-- Go `json.Unmarshal(raw, &m)` for an initially empty
`map[string][]any`: a nil raw message (absent key) is the empty-input
decode error; a JSON null leaves the map empty; a JSON object is decoded
member-wise by `decodeFieldsEntries`; anything else is a type error. -/
def decodeFieldsMap (v : Option JValue) : Except String (List (String × List JValue)) :=
  match v with
  | none => .error "unexpected end of JSON input"
  | some .null => .ok []
  | some (.obj kvs) => decodeFieldsEntries kvs
  | some _ => .error "json: cannot unmarshal value into Go value of type map"

/-- The anonymous inner struct of `SearchHit.UnmarshalJSON`: `_index`,
`_id`, `_score` decoded eagerly, `_source` and `fields` retained as raw
messages (`none` models a nil `json.RawMessage`, i.e. an absent key). -/
structure SearchHitWire where
  index : String
  id : String
  score : Rat
  source : Option JValue
  fields : Option JValue

/-- Phase one of `SearchHit.UnmarshalJSON`: `json.Unmarshal(data,
&searchHit)` into the anonymous struct.  A JSON null is a no-op, leaving
the zero-valued struct; a non-object is a type error. -/
def decodeSearchHitWire (data : JValue) : Except String SearchHitWire :=
  match data with
  | .obj kvs =>
    match getGoString (lookupL kvs "_index") with
    | .error e => .error e
    | .ok index =>
      match getGoString (lookupL kvs "_id") with
      | .error e => .error e
      | .ok id =>
        match getGoNumber (lookupL kvs "_score") with
        | .error e => .error e
        | .ok score =>
          .ok { index, id, score
                source := lookupL kvs "_source"
                fields := lookupL kvs "fields" }
  | .null => .ok { index := "", id := "", score := 0, source := none, fields := none }
  | _ => .error "json: cannot unmarshal value into Go value of type struct"

/-- `fmt.Errorf` wrapping of a decode error with a context message. -/
def wrapErr (pre : String) : Except String β → Except String β
  | .error e => .error (pre ++ e)
  | .ok v => .ok v

/-- `SearchHit.UnmarshalJSON`: decodes the wire struct, then unmarshals the
retained raw `_source` into `Source` (a `map[string]any`) and the retained
raw `fields` into `Fields` (a `map[string][]any`), wrapping the error of
either inner unmarshal with its context message. -/
def SearchHit.UnmarshalJSON (data : JValue) : Except String SearchHit :=
  match decodeSearchHitWire data with
  | .error e => .error e
  | .ok w =>
    match wrapErr "error unmarshaling _source: " (decodeAnyMap w.source) with
    | .error e => .error e
    | .ok source =>
      match wrapErr "error unmarshaling fields: " (decodeFieldsMap w.fields) with
      | .error e => .error e
      | .ok fields =>
        .ok { index := w.index, id := w.id, score := w.score
              fields, source
              rawSource := w.source, rawFields := w.fields }

/-- Go `encoding/json` for the `total` sub-object of a search response
(type `SearchHitsTotal`): absent or null leaves the zero value. -/
def decodeSearchHitsTotal (v : Option JValue) : Except String SearchHitsTotal :=
  match v with
  | none => .ok { value := 0, relation := "" }
  | some .null => .ok { value := 0, relation := "" }
  | some (.obj kvs) =>
    match getGoInt (lookupL kvs "value") with
    | .error e => .error e
    | .ok value =>
      match getGoString (lookupL kvs "relation") with
      | .error e => .error e
      | .ok relation => .ok { value, relation }
  | some _ => .error "json: cannot unmarshal value into Go value of type struct"

/-- Decodes a JSON array of hits element-wise through
`SearchHit.UnmarshalJSON`, as Go does for a `[]SearchHit` field. -/
def decodeHitList : List JValue → Except String (List SearchHit)
  | [] => .ok []
  | v :: rest =>
    match SearchHit.UnmarshalJSON v with
    | .error e => .error e
    | .ok h =>
      match decodeHitList rest with
      | .error e => .error e
      | .ok tail => .ok (h :: tail)

/-- Go `encoding/json` for the `hits` sub-object of a search response
(type `SearchHits`): absent or null leaves the zero value; the `hits`
array is decoded element-wise. -/
def decodeSearchHits (v : Option JValue) : Except String SearchHits :=
  match v with
  | none => .ok { total := { value := 0, relation := "" }, hits := [] }
  | some .null => .ok { total := { value := 0, relation := "" }, hits := [] }
  | some (.obj kvs) =>
    match decodeSearchHitsTotal (lookupL kvs "total") with
    | .error e => .error e
    | .ok total =>
      match lookupL kvs "hits" with
      | none => .ok { total, hits := [] }
      | some .null => .ok { total, hits := [] }
      | some (.arr vs) =>
        match decodeHitList vs with
        | .error e => .error e
        | .ok hits => .ok { total, hits }
      | some _ => .error "json: cannot unmarshal value into Go value of type slice"
  | some _ => .error "json: cannot unmarshal value into Go value of type struct"

/-- Go `encoding/json` for a `map[string]json.RawMessage` field: values
are retained raw. -/
def decodeRawMap (v : Option JValue) : Except String (List (String × JValue)) :=
  match v with
  | none => .ok []
  | some .null => .ok []
  | some (.obj kvs) => .ok kvs
  | some _ => .error "json: cannot unmarshal value into Go value of type map"

/-- Go `json.Unmarshal` of a whole search response into `SearchResult`. -/
def SearchResult.decode (data : JValue) : Except String SearchResult :=
  match data with
  | .obj kvs =>
    match decodeSearchHits (lookupL kvs "hits") with
    | .error e => .error e
    | .ok hits =>
      match decodeRawMap (lookupL kvs "aggregations") with
      | .error e => .error e
      | .ok aggregations => .ok { hits, aggregations }
  | .null => .ok { hits := { total := { value := 0, relation := "" }, hits := [] }, aggregations := [] }
  | _ => .error "json: cannot unmarshal value into Go value of type struct"

/-- The `esapi.IndicesRefreshRequest` fields espoll sets. -/
structure RefreshRequest where
  index : List String
  expandWildcards : String

/-- One network call performed by `SearchIndexMinDocs`, in order. -/
inductive Effect where
  | refresh (req : RefreshRequest)
  | search (req : SearchRequest)

/-- The transport oracle: the outcome of the one refresh call, and the
outcome of `req.Do` (the polling client's query loop, which lives in the
espoll client file and is external to `SearchIndexMinDocs`'s own control
flow) as a function of the request it is handed. -/
structure Transport where
  refreshResult : Except String Unit
  searchExec : SearchRequest → Except String SearchResult

/-- The assignment `req.ExpandWildcards = "open,hidden"` performed by
`SearchIndexMinDocs` right after creating the request. -/
def SearchRequest.withWildcardsOpenHidden (r : SearchRequest) : SearchRequest :=
  { r with expandWildcards := "open,hidden" }

/-- The request `SearchIndexMinDocs` builds before issuing anything: a new
search request for `index` with wildcards expanded to `"open,hidden"`, the
size override set only when `min > 10` (the store's default page size is
10, so a caller expecting more gets everything in one page), and the query
body installed when a query is given. -/
def buildSearchRequest (min : Int) (index : String) (query : Option JValue) : SearchRequest :=
  match query with
  | some q =>
    (if min > 10 then ((NewSearchRequest index).withWildcardsOpenHidden).WithSize min
     else (NewSearchRequest index).withWildcardsOpenHidden).WithQuery q
  | none =>
    if min > 10 then ((NewSearchRequest index).withWildcardsOpenHidden).WithSize min
    else (NewSearchRequest index).withWildcardsOpenHidden

/-- The `esapi.IndicesRefreshRequest` that `SearchIndexMinDocs` issues: its
target is `strings.Split(",", index)` — exactly as the source writes it,
with the literal comma string as the string being split. -/
def refreshRequestFor (index : String) : RefreshRequest :=
  { index := goSplit "," index, expandWildcards := "all" }

/-- `Client.SearchIndexMinDocs`: builds the search request, issues the
index refresh, and on refresh failure returns the wrapped refresh error
without searching; on refresh success hands the request to `req.Do`.  The
condition option it appends (`AllCondition` of `MinHitsCondition min` and
`TotalHitsCondition req`) is passed into `req.Do`, whose loop lives in the
client file and is modelled by the `searchExec` oracle; the conditions are
verified separately on their own definitions.  The model returns the
call's outcome together with the ordered trace of network calls made. -/
def SearchIndexMinDocs (tr : Transport) (min : Int) (index : String)
    (query : Option JValue) : Except String SearchResult × List Effect :=
  match tr.refreshResult with
  | .error e =>
    (.error ("failed refreshing indices: " ++ index ++ ": " ++ e),
     [.refresh (refreshRequestFor index)])
  | .ok _ =>
    match tr.searchExec (buildSearchRequest min index query) with
    | .error e =>
      (.error ("failed issuing request: " ++ e),
       [.refresh (refreshRequestFor index), .search (buildSearchRequest min index query)])
    | .ok result =>
      (.ok result,
       [.refresh (refreshRequestFor index), .search (buildSearchRequest min index query)])

/-- A decoded response with no hits and an exact total of zero. -/
def emptyResult : SearchResult :=
  { hits := { total := { value := 0, relation := "eq" }, hits := [] }, aggregations := [] }

/-- A transport whose refresh succeeds and whose every search returns the
empty result. -/
def transportOkEmpty : Transport :=
  { refreshResult := .ok (), searchExec := fun _ => .ok emptyResult }

/-- A transport whose refresh fails. -/
def transportRefreshFail : Transport :=
  { refreshResult := .error "connection refused", searchExec := fun _ => .ok emptyResult }

/-- A concrete decoded hit used by the closed example theorems. -/
def hitE : SearchHit :=
  { index := "traces-apm", id := "1", score := 1
    fields := [("service.name", [.str "x"])]
    source := []
    rawSource := some (.obj [])
    rawFields := some (.obj [("service.name", .arr [.str "x"])]) }

/-- Two decoded hits with an exact total of two. -/
def hitsTwo : SearchHits :=
  { total := { value := 2, relation := "eq" }, hits := [hitE, hitE] }

/-- The JSON of a well-formed hit whose `fields` payload wraps the single
value of `service.name` in a one-element array. -/
def hitJsonE : JValue :=
  .obj [("_index", .str "traces-apm"), ("_id", .str "1"), ("_score", .num 1),
        ("_source", .obj []), ("fields", .obj [("service.name", .arr [.str "x"])])]

/-- The JSON of a search response reporting a total of zero while carrying
one hit: the two counts are decoded independently, so such a response
decodes successfully. -/
def responseJsonOneHitTotalZero : JValue :=
  .obj [("hits", .obj [
    ("total", .obj [("value", .num 0), ("relation", .str "eq")]),
    ("hits", .arr [hitJsonE])])]

/-- The decoded form of `responseJsonOneHitTotalZero`. -/
def resultOneHitTotalZero : SearchResult :=
  { hits := { total := { value := 0, relation := "eq" }, hits := [hitE] }
    aggregations := [] }

theorem runConds_snd_eq_applyConds (conds : List (Cond α)) (s : α) :
    (runConds conds s).2 = applyConds conds s := by
  induction conds generalizing s with
  | nil => rfl
  | cons c cs ih => simp [runConds, applyConds, List.foldl_cons, ih (c s).2, applyConds]

theorem allCondition_foldl (conds : List (Cond α)) (b : Bool) (s : α) :
    conds.foldl (fun acc c => let r := c acc.2; (acc.1 && r.1, r.2)) (b, s) =
      (b && (runConds conds s).1.all id, (runConds conds s).2) := by
  induction conds generalizing b s with
  | nil => simp [runConds]
  | cons c cs ih => simp [runConds, List.foldl_cons, ih, Bool.and_assoc]

theorem runConds_length (conds : List (Cond α)) (s : α) :
    (runConds conds s).1.length = conds.length := by
  induction conds generalizing s with
  | nil => rfl
  | cons c cs ih => simp [runConds, ih]

theorem wrapErr_ok_iff {β : Type} (pre : String) (x : Except String β) (v : β) :
    wrapErr pre x = .ok v ↔ x = .ok v := by
  cases x <;> simp [wrapErr]

/-- Decoding the members of a fields object neither drops nor unwraps a
binding: a key absent before decoding is absent after it, and a key bound
to the array `vs` is bound to exactly the sequence `vs` after it. -/
theorem decodeFieldsEntries_lookup (fkvs : List (String × JValue))
    (m : List (String × List JValue)) (hd : decodeFieldsEntries fkvs = .ok m) (k : String) :
    (lookupL fkvs k = none → lookupL m k = none) ∧
    (∀ vs, lookupL fkvs k = some (.arr vs) → lookupL m k = some vs) := by
  induction fkvs generalizing m with
  | nil =>
    simp only [decodeFieldsEntries, Except.ok.injEq] at hd
    subst hd
    simp [lookupL]
  | cons p rest ih =>
    obtain ⟨k2, v⟩ := p
    simp only [decodeFieldsEntries] at hd
    cases hv : decodeAnyList v with
    | error e => rw [hv] at hd; exact absurd hd (by simp)
    | ok vs2 =>
      rw [hv] at hd
      cases hr : decodeFieldsEntries rest with
      | error e => rw [hr] at hd; exact absurd hd (by simp)
      | ok tail =>
        rw [hr] at hd
        simp only [Except.ok.injEq] at hd
        subst hd
        constructor
        · intro hnone
          simp only [lookupL] at hnone ⊢
          cases hlr : lookupL rest k with
          | some r => rw [hlr] at hnone; exact absurd hnone (by simp)
          | none =>
            rw [hlr] at hnone
            have hk2 : ¬ k2 = k := by
              intro hk
              rw [if_pos hk] at hnone
              exact absurd hnone (by simp)
            rw [(ih tail hr).1 hlr, if_neg hk2]
        · intro vs hsome
          simp only [lookupL] at hsome ⊢
          cases hlr : lookupL rest k with
          | some r =>
            rw [hlr] at hsome
            have hrv : r = .arr vs := by injection hsome
            have : lookupL tail k = some vs :=
              (ih tail hr).2 vs (by rw [hlr, hrv])
            rw [this]
          | none =>
            rw [hlr] at hsome
            by_cases hk : k2 = k
            · rw [if_pos hk] at hsome
              have hvv : v = .arr vs := by injection hsome
              have hvs2 : vs2 = vs := by
                rw [hvv] at hv
                simp only [decodeAnyList, Except.ok.injEq] at hv
                exact hv.symm
              rw [(ih tail hr).1 hlr, if_pos hk, hvs2]
            · rw [if_neg hk] at hsome
              exact absurd hsome (by simp)

/-- Phase one of the hit decoder retains the raw `_source` and `fields`
values of the hit object unchanged. -/
theorem decodeSearchHitWire_raw (kvs : List (String × JValue)) (w : SearchHitWire)
    (hw : decodeSearchHitWire (.obj kvs) = .ok w) :
    w.source = lookupL kvs "_source" ∧ w.fields = lookupL kvs "fields" := by
  simp only [decodeSearchHitWire] at hw
  cases h1 : getGoString (lookupL kvs "_index") with
  | error e => rw [h1] at hw; exact absurd hw (by simp)
  | ok s1 =>
    rw [h1] at hw
    cases h2 : getGoString (lookupL kvs "_id") with
    | error e => rw [h2] at hw; exact absurd hw (by simp)
    | ok s2 =>
      rw [h2] at hw
      cases h3 : getGoNumber (lookupL kvs "_score") with
      | error e => rw [h3] at hw; exact absurd hw (by simp)
      | ok q =>
        rw [h3] at hw
        simp only [Except.ok.injEq] at hw
        subst hw
        exact ⟨rfl, rfl⟩

/-- A successful hit decode splits into a successful wire decode, the raw
messages it retained, and successful inner decodes of source and fields. -/
theorem unmarshal_ok_parts (data : JValue) (h : SearchHit)
    (hok : SearchHit.UnmarshalJSON data = .ok h) :
    ∃ w, decodeSearchHitWire data = .ok w ∧
      h.rawSource = w.source ∧ h.rawFields = w.fields ∧
      decodeAnyMap w.source = .ok h.source ∧
      decodeFieldsMap w.fields = .ok h.fields := by
  simp only [SearchHit.UnmarshalJSON] at hok
  split at hok
  · simp at hok
  · rename_i w hw
    split at hok
    · simp at hok
    · rename_i source hs
      split at hok
      · simp at hok
      · rename_i fields hf
        simp only [Except.ok.injEq] at hok
        subst hok
        exact ⟨w, hw, rfl, rfl, (wrapErr_ok_iff _ _ _).1 hs, (wrapErr_ok_iff _ _ _).1 hf⟩

/-- C5: decoding preserves the sequence wrapping of field values: when the
hit's `fields` payload binds a field path to a JSON array, the decoded
`Fields` mapping binds that path to exactly that sequence of values, with
no unwrapping to a scalar at decode time. -/
theorem searchHit_fields_sequences_preserved (data : JValue) (h : SearchHit)
    (k : String) (vs : List JValue) (fkvs : List (String × JValue))
    (hok : SearchHit.UnmarshalJSON data = .ok h)
    (hraw : h.rawFields = some (.obj fkvs))
    (hk : lookupL fkvs k = some (.arr vs)) :
    lookupL h.fields k = some vs := by
  obtain ⟨w, _, _, hrf, _, hfm⟩ := unmarshal_ok_parts data h hok
  rw [hrf] at hraw
  rw [hraw] at hfm
  simp only [decodeFieldsMap] at hfm
  exact (decodeFieldsEntries_lookup fkvs h.fields hfm k).2 vs hk

/-- Witness for C5 at the spec's concrete scenario: a hit whose `fields`
payload is the object binding `service.name` to `["x"]` decodes with
`Fields` binding `service.name` to exactly `["x"]`. -/
theorem searchHit_fields_sequences_preserved_witness :
    SearchHit.UnmarshalJSON hitJsonE = .ok hitE ∧
    hitE.rawFields = some (.obj [("service.name", .arr [.str "x"])]) ∧
    lookupL [("service.name", JValue.arr [.str "x"])] "service.name" = some (.arr [.str "x"]) ∧
    lookupL hitE.fields "service.name" = some [.str "x"] :=
  ⟨rfl, rfl, rfl,
    searchHit_fields_sequences_preserved hitJsonE hitE "service.name" [.str "x"]
      [("service.name", .arr [.str "x"])] rfl rfl rfl⟩

/-- C8: a hit object missing the `_source` key or missing the `fields` key
fails to decode with an error, however well formed the rest of the object
is: the retained raw message is nil and unmarshaling it fails. -/
theorem searchHit_missing_source_or_fields_errors (kvs : List (String × JValue))
    (hmiss : lookupL kvs "_source" = none ∨ lookupL kvs "fields" = none) :
    ∃ e, SearchHit.UnmarshalJSON (.obj kvs) = .error e := by
  cases hu : SearchHit.UnmarshalJSON (.obj kvs) with
  | error e => exact ⟨e, rfl⟩
  | ok h =>
    exfalso
    obtain ⟨w, hw, _, _, hsrcOk, hfldOk⟩ := unmarshal_ok_parts (.obj kvs) h hu
    obtain ⟨hsrc, hfld⟩ := decodeSearchHitWire_raw kvs w hw
    rcases hmiss with hm | hm
    · rw [hsrc, hm] at hsrcOk
      simp [decodeAnyMap] at hsrcOk
    · rw [hfld, hm] at hfldOk
      simp [decodeFieldsMap] at hfldOk

/-- Witness for C8: a hit object carrying well-formed `_index`, `_id`,
`_score` and `fields` but no `_source` key fails to decode, and one
carrying `_source` but no `fields` key fails to decode too. -/
theorem searchHit_missing_source_or_fields_errors_witness :
    (lookupL [("_index", JValue.str "i"), ("_id", JValue.str "1"),
        ("_score", JValue.num 1), ("fields", JValue.obj [])] "_source" = none ∨
      lookupL [("_index", JValue.str "i"), ("_id", JValue.str "1"),
        ("_score", JValue.num 1), ("fields", JValue.obj [])] "fields" = none) ∧
    (∃ e, SearchHit.UnmarshalJSON (.obj [("_index", .str "i"), ("_id", .str "1"),
        ("_score", .num 1), ("fields", .obj [])]) = .error e) :=
  ⟨Or.inl rfl,
    searchHit_missing_source_or_fields_errors
      [("_index", .str "i"), ("_id", .str "1"), ("_score", .num 1), ("fields", .obj [])]
      (Or.inl rfl)⟩

/-- C1, as stated, is false: `TotalHitsCondition` compares with `>=`, not
with equality.  The response reporting a total of zero while carrying one
hit decodes successfully, and on its decoded result the condition returns
true although the number of hits differs from the reported total. -/
theorem totalHitsCondition_not_iff_equal_total :
    SearchResult.decode responseJsonOneHitTotalZero = .ok resultOneHitTotalZero ∧
    ¬ (((resultOneHitTotalZero.hits.TotalHitsCondition (NewSearchRequest "traces-apm")).1 = true) ↔
        ((resultOneHitTotalZero.hits.hits.length : Int) = resultOneHitTotalZero.hits.total.value)) := by
  refine ⟨rfl, ?_⟩
  intro hiff
  have h1 : ((resultOneHitTotalZero.hits.TotalHitsCondition (NewSearchRequest "traces-apm")).1 = true) := rfl
  have h2 := hiff.1 h1
  simp [resultOneHitTotalZero, hitE] at h2

/-- C1 (amended): `TotalHitsCondition` returns true iff the number of
decoded hits is at least (not equal to) the reported total; when it
returns false it sets the payload's size override to exactly the reported
total, and when the hits length equals the total it leaves the payload
untouched. -/
theorem totalHitsCondition_spec (h : SearchHits) (req : SearchRequest) :
    ((h.TotalHitsCondition req).1 = true ↔ (h.hits.length : Int) ≥ h.total.value) ∧
    ((h.hits.length : Int) < h.total.value →
      h.TotalHitsCondition req = (false, { req with size := some h.total.value })) ∧
    ((h.hits.length : Int) = h.total.value → (h.TotalHitsCondition req).2 = req) := by
  unfold SearchHits.TotalHitsCondition
  by_cases hge : (h.hits.length : Int) ≥ h.total.value
  · rw [if_pos hge]
    refine ⟨by simp [hge], fun hlt => absurd hge (not_le.2 hlt), fun _ => rfl⟩
  · rw [if_neg hge]
    refine ⟨by simp [hge], fun _ => rfl, fun heq => absurd (ge_of_eq heq) hge⟩

/-- C2: the refresh request built by `SearchIndexMinDocs` targets
`strings.Split(",", index)` — the literal comma string split by the index —
so for the index `"traces-apm"` it refreshes the index named `","` instead
of `strings.Split(index, ",") = ["traces-apm"]`, the index set the search
itself targets. -/
theorem refresh_target_swaps_split_arguments (tr : Transport) (min : Int)
    (query : Option JValue) :
    (SearchIndexMinDocs tr min "traces-apm" query).2.head? =
      some (.refresh { index := [","], expandWildcards := "all" }) ∧
    goSplit "," "traces-apm" = [","] ∧
    goSplit "traces-apm" "," = ["traces-apm"] ∧
    ([","] : List String) ≠ ["traces-apm"] := by
  have hrt : refreshRequestFor "traces-apm" = { index := [","], expandWildcards := "all" } := rfl
  refine ⟨?_, by decide, by decide, by decide⟩
  unfold SearchIndexMinDocs
  cases htr : tr.refreshResult with
  | error e => simp [htr, hrt]
  | ok u =>
    cases hse : tr.searchExec (buildSearchRequest min "traces-apm" query) with
    | error e => simp [htr, hse, hrt]
    | ok result => simp [htr, hse, hrt]

/-- C3: `AllCondition` applies every sub-condition on every attempt — the
final payload state is the sequential application of every sub-condition's
side effect, independent of any verdict, the number of verdicts produced
equals the number of sub-conditions, and the composition's verdict is true
iff every sub-condition's verdict on that attempt is true. -/
theorem allCondition_evaluates_all (conds : List (Cond α)) (s : α) :
    (AllCondition conds s).2 = applyConds conds s ∧
    (runConds conds s).1.length = conds.length ∧
    ((AllCondition conds s).1 = true ↔ ∀ b ∈ (runConds conds s).1, b = true) := by
  unfold AllCondition
  rw [allCondition_foldl conds true s]
  refine ⟨by simp [runConds_snd_eq_applyConds], runConds_length conds s, ?_⟩
  simp [List.all_eq_true]

/-- C4: `MinHitsCondition min` is true iff the number of decoded hits is at
least `min` (so false for hit counts below `min`), for every `min ≥ 0`
including zero, and it is pure: the payload comes back untouched. -/
theorem minHitsCondition_spec (h : SearchHits) (min : Int) (hmin : 0 ≤ min)
    (req : SearchRequest) :
    ((h.MinHitsCondition min req).1 = true ↔ (h.hits.length : Int) ≥ min) ∧
    (h.MinHitsCondition min req).2 = req := by
  exact ⟨by simp [SearchHits.MinHitsCondition], rfl⟩

/-- Witness for C4 at `min = 2` on a two-hit result (and the hypothesis
`0 ≤ 2` discharged concretely). -/
theorem minHitsCondition_spec_witness :
    (0 : Int) ≤ 2 ∧
    (((hitsTwo.MinHitsCondition 2 (NewSearchRequest "traces-apm")).1 = true ↔
        (hitsTwo.hits.length : Int) ≥ 2) ∧
      (hitsTwo.MinHitsCondition 2 (NewSearchRequest "traces-apm")).2 =
        NewSearchRequest "traces-apm") :=
  ⟨by decide, minHitsCondition_spec hitsTwo 2 (by decide) (NewSearchRequest "traces-apm")⟩

/-- C6: when the index refresh fails, `SearchIndexMinDocs` returns the
refresh error (wrapped with its context message) at once: the trace holds
exactly the one refresh call — the search is never issued and the refresh
is never retried. -/
theorem refresh_failure_aborts (tr : Transport) (min : Int) (index : String)
    (query : Option JValue) (e : String) (he : tr.refreshResult = .error e) :
    (SearchIndexMinDocs tr min index query).1 =
      .error ("failed refreshing indices: " ++ index ++ ": " ++ e) ∧
    (SearchIndexMinDocs tr min index query).2 =
      [.refresh { index := goSplit "," index, expandWildcards := "all" }] := by
  unfold SearchIndexMinDocs
  rw [he]
  exact ⟨rfl, rfl⟩

/-- Witness for C6: a transport whose refresh fails with
`"connection refused"`. -/
theorem refresh_failure_aborts_witness :
    transportRefreshFail.refreshResult = .error "connection refused" ∧
    ((SearchIndexMinDocs transportRefreshFail 1 "traces-apm" none).1 =
        .error ("failed refreshing indices: " ++ "traces-apm" ++ ": " ++ "connection refused") ∧
      (SearchIndexMinDocs transportRefreshFail 1 "traces-apm" none).2 =
        [.refresh { index := goSplit "," "traces-apm", expandWildcards := "all" }]) :=
  ⟨rfl, refresh_failure_aborts transportRefreshFail 1 "traces-apm" none "connection refused" rfl⟩

/-- C7, as stated, is false: a `SearchIndexMinDocs` call with an empty
index argument is not rejected by any validation — against a transport
that satisfies the condition it performs a refresh network call, then a
search network call, and succeeds. -/
theorem empty_index_not_validated :
    (SearchIndexMinDocs transportOkEmpty 1 "" none).1 = .ok emptyResult ∧
    (SearchIndexMinDocs transportOkEmpty 1 "" none).2 =
      [.refresh { index := [","], expandWildcards := "all" },
       .search { index := [""], expandWildcards := "open,hidden", size := none,
                 sort := [], body := .obj [("fields", .arr [.str "*"])] }] :=
  ⟨rfl, rfl⟩

/-- C7 (amended): a Poll call (`SearchIndexMinDocs`) whose Query Payload
has an empty index set is not rejected up front: no validation runs before
network I/O — the refresh request is always the first network call, for the
empty index string included — and the empty index string yields the
singleton index set containing the empty string for the search request. -/
theorem empty_index_refresh_first (tr : Transport) (min : Int) (query : Option JValue) :
    (SearchIndexMinDocs tr min "" query).2.head? =
      some (.refresh { index := [","], expandWildcards := "all" }) ∧
    (NewSearchRequest "").index = [""] := by
  have hrt : refreshRequestFor "" = { index := [","], expandWildcards := "all" } := rfl
  refine ⟨?_, by simp [NewSearchRequest]; decide⟩
  unfold SearchIndexMinDocs
  cases htr : tr.refreshResult with
  | error e => simp [htr, hrt]
  | ok u =>
    cases hse : tr.searchExec (buildSearchRequest min "" query) with
    | error e => simp [htr, hse, hrt]
    | ok result => simp [htr, hse, hrt]

/-- C9: when the refresh succeeds the one search request handed to the
query loop — built before the first attempt — carries the size override
`min` exactly when `min > 10`, and no size override (the store's default
page size applies) when `min ≤ 10`. -/
theorem search_size_set_iff_min_gt_ten (tr : Transport) (min : Int) (index : String)
    (query : Option JValue) (hok : tr.refreshResult = .ok ()) :
    ∃ req : SearchRequest,
      (SearchIndexMinDocs tr min index query).2 =
        [.refresh { index := goSplit "," index, expandWildcards := "all" }, .search req] ∧
      req.size = (if min > 10 then some min else none) := by
  refine ⟨buildSearchRequest min index query, ?_, ?_⟩
  · unfold SearchIndexMinDocs
    rw [hok]
    cases hse : tr.searchExec (buildSearchRequest min index query) with
    | error e => simp [hse, refreshRequestFor]
    | ok result => simp [hse, refreshRequestFor]
  · unfold buildSearchRequest
    cases query with
    | none =>
      by_cases hmin : min > 10
      · simp [hmin, SearchRequest.WithSize, SearchRequest.withWildcardsOpenHidden]
      · simp [hmin, SearchRequest.withWildcardsOpenHidden, NewSearchRequest]
    | some q =>
      by_cases hmin : min > 10
      · simp [hmin, SearchRequest.WithQuery, SearchRequest.WithSize,
          SearchRequest.withWildcardsOpenHidden]
      · simp [hmin, SearchRequest.WithQuery, SearchRequest.withWildcardsOpenHidden,
          NewSearchRequest]

/-- Witness for C9 at `min = 42` (size override set to 42) over the
always-succeeding transport. -/
theorem search_size_set_iff_min_gt_ten_witness :
    transportOkEmpty.refreshResult = .ok () ∧
    (∃ req : SearchRequest,
      (SearchIndexMinDocs transportOkEmpty 42 "traces-apm" none).2 =
        [.refresh { index := goSplit "," "traces-apm", expandWildcards := "all" },
         .search req] ∧
      req.size = (if (42 : Int) > 10 then some 42 else none)) :=
  ⟨rfl, search_size_set_iff_min_gt_ten transportOkEmpty 42 "traces-apm" none rfl⟩

/-- C10: `NonEmptyCondition` behaves exactly as `MinHitsCondition 1` on
every result and payload — indeed it is that condition — and both are true
precisely on a non-empty hit list. -/
theorem nonEmptyCondition_eq_minHits_one (h : SearchHits) (req : SearchRequest) :
    h.NonEmptyCondition req = h.MinHitsCondition 1 req ∧
    ((h.NonEmptyCondition req).1 = true ↔ h.hits ≠ []) := by
  refine ⟨rfl, ?_⟩
  simp only [SearchHits.NonEmptyCondition, SearchHits.MinHitsCondition,
    decide_eq_true_eq, ge_iff_le]
  constructor
  · intro hle
    intro hnil
    rw [hnil] at hle
    simp at hle
  · intro hne
    have : 0 < h.hits.length := List.length_pos.2 hne
    exact_mod_cast this

end Espoll
